import Mathlib

/-!
Shallow embedding of `flujoADRsvslocal.py`.

Dates are modelled as integers (days).  The upstream market-data provider
(`yfinance`) is modelled as a `Market`: a map from ticker symbols to either a
full historical price table or a transport error.  `ticker.history(start, end)`
is embedded as filtering the full table of the symbol to rows whose date lies in
`[start, end)`.  Prices and volumes are rationals.  Pandas column access
`ticker_data` indexed at the Adj Close column raises `KeyError` when the column is absent; the
table therefore carries a `hasAdjClose` flag and the embedding of
`get_valid_date` routes the missing-column case through the same
caught-exception path as the Python `except Exception` block.  `st.warning` /
`st.error` side effects are modelled as returned lists of message strings.
-/

namespace FlujoADR

/-- One row of the historical table of the provider: calendar date, the value of the
adjusted-close column, the plain close column, and the volume column. -/
structure Row where
  date : Int
  adjClose : ℚ
  close : ℚ
  volume : ℚ
  deriving Repr, DecidableEq

/-- The full historical table of a symbol as returned by the provider.
`hasAdjClose` records whether the adjusted-close column is present at all
(pandas raises `KeyError` on access when it is not). -/
structure PriceTable where
  hasAdjClose : Bool
  rows : List Row
  deriving Repr, DecidableEq

/-- Result of contacting the provider for one symbol: either its table, or a
transport/parsing error with a message (the exception text). -/
inductive Fetch where
  | ok (table : PriceTable)
  | err (msg : String)
  deriving Repr, DecidableEq

/-- The upstream market-data source: the full history of each symbol, or an error. -/
def Market : Type := String → Fetch

/-- Embedding of `ticker.history(start=lo, end=hi)` row selection: the rows of
the table whose date lies in the half-open interval `[lo, hi)`. -/
def windowRows (t : PriceTable) (lo hi : Int) : List Row :=
  t.rows.filter (fun r => decide (lo ≤ r.date) && decide (r.date < hi))

/-- `if best.date < x.date then x else best`: the fold step implementing
`ticker_data.index.max()` followed by `.loc[latest]`. -/
def laterRow (best x : Row) : Row :=
  if best.date < x.date then x else best

/-- The row holding `ticker_data.index.max()`: `none` on an empty table
(`ticker_data.empty`), otherwise the row with the maximum date. -/
def selectLatest : List Row → Option Row
  | [] => none
  | r :: rs => some (rs.foldl laterRow r)

/-- The `st.warning` text of the no-data branch of `get_valid_date`. -/
def noDataMsg (sym : String) (lo hi : Int) : String :=
  "No data available for " ++ sym ++ " between " ++ toString lo ++ " and "
    ++ toString hi ++ "."

/-- The `st.warning` text of the `except Exception` branch of
`get_valid_date`: the exception text `e` is appended. -/
def fetchErrMsg (sym : String) (e : String) : String :=
  "Error fetching data for " ++ sym ++ ": " ++ e

/-- Embedding of `get_valid_date(ticker, selected_date)`: returns the
`(price, volume)` pair (or `none` for the Python `None, None`) together with
the list of warning messages emitted.  The lookback window is
`[selected - 7, selected + 1)`.  A transport error, and likewise the
`KeyError` raised when the adjusted-close column is absent, are caught and
turned into a `none` result with an error warning. -/
def get_valid_date (m : Market) (sym : String) (selected : Int) :
    Option (ℚ × ℚ) × List String :=
  match m sym with
  | Fetch.err e => (none, [fetchErrMsg sym e])
  | Fetch.ok t =>
      match selectLatest (windowRows t (selected - 7) (selected + 1)) with
      | none => (none, [noDataMsg sym (selected - 7) (selected + 1)])
      | some latest =>
          if t.hasAdjClose then
            (some (latest.adjClose, latest.volume), [])
          else
            (none, [fetchErrMsg sym "KeyError: Adj Close"])

/-- One line of the DataFrame built by `fetch_price_volume`:
a dict with Ticker, Price and Volume keys. -/
structure Entry where
  ticker : String
  price : ℚ
  volume : ℚ
  deriving Repr, DecidableEq

/-- Embedding of `fetch_price_volume(tickers, selected_date)`: resolves each
ticker in order, returning the list of resolved rows (the DataFrame) and the
list of failed tickers. -/
def fetch_price_volume (m : Market) : List String → Int → List Entry × List String
  | [], _ => ([], [])
  | sym :: rest, selected =>
      let tail := fetch_price_volume m rest selected
      match (get_valid_date m sym selected).1 with
      | some pv => (⟨sym, pv.1, pv.2⟩ :: tail.1, tail.2)
      | none => (tail.1, sym :: tail.2)

/-- Embedding of `calculate_sum(df)` including the pandas column access.  A
DataFrame built from an empty data list has no columns at all, so indexing
the Price column raises `KeyError` before any sum is taken; on a nonempty
DataFrame the result is the sum of Price times Volume over the rows. -/
def calculate_sum (df : List Entry) : Except String ℚ :=
  if df.isEmpty then Except.error "KeyError: Price"
  else Except.ok ((df.map (fun e => e.price * e.volume)).sum)

/-- Embedding of `fetch_ypf_ratio(selected_date)`: resolves `YPF` and
`YPFD.BA` for the same date, returns `none` when either price is `None`,
otherwise the ratio `ypfd_price / ypf_price`.  Note there is no test of
`ypf_price` against zero in the source. -/
def fetch_ypf_ratio (m : Market) (selected : Int) : Option ℚ :=
  let ypf_price := (get_valid_date m "YPF" selected).1
  let ypfd_price := (get_valid_date m "YPFD.BA" selected).1
  match ypf_price, ypfd_price with
  | some pv, some pdv => some (pdv.1 / pv.1)
  | _, _ => none

/-- Embedding of the basket normalization step of `main`
(`if ypfd_ratio: value = s / ypfd_ratio else: value = 0; st.error(...)`).
Python truthiness makes both `None` and `0.0` take the `else` branch.  The
Bool is `true` exactly when the reportable `st.error` condition is raised. -/
def normalize_step (s : ℚ) (ratio : Option ℚ) : ℚ × Bool :=
  match ratio with
  | none => (0, true)
  | some r => if r = 0 then (0, true) else (s / r, false)

/-- Embedding of the value computation of one panel in `main`: fetch the basket,
and when the DataFrame is nonempty normalize its dollar-volume sum by the
YPFD/YPF ratio; the Bool is `true` exactly when the ratio-related `st.error`
was raised.  `main` calls `calculate_sum` only under its own nonempty guard,
so the `KeyError` branch of `calculate_sum` is unreachable here (the error
arm below never fires: the DataFrame is nonempty in that arm). -/
def panel_value (m : Market) (tickers : List String) (selected : Int) :
    ℚ × Bool :=
  if (fetch_price_volume m tickers selected).1.isEmpty then (0, false)
  else
    match calculate_sum (fetch_price_volume m tickers selected).1 with
    | Except.ok s => normalize_step s (fetch_ypf_ratio m selected)
    | Except.error _ => (0, false)

/-! ### Helper lemmas -/

theorem mem_windowRows {t : PriceTable} {lo hi : Int} {r : Row} :
    r ∈ windowRows t lo hi ↔ r ∈ t.rows ∧ lo ≤ r.date ∧ r.date < hi := by
  simp [windowRows, List.mem_filter]

theorem foldl_laterRow_mem (rs : List Row) (r : Row) :
    rs.foldl laterRow r = r ∨ rs.foldl laterRow r ∈ rs := by
  induction rs generalizing r with
  | nil => exact Or.inl rfl
  | cons x rs ih =>
      rcases ih (laterRow r x) with h | h
      · rw [List.foldl_cons, h]
        unfold laterRow
        split
        · exact Or.inr (List.mem_cons_self _ _)
        · exact Or.inl rfl
      · exact Or.inr (List.mem_cons_of_mem _ h)

theorem foldl_laterRow_le (rs : List Row) (r : Row) :
    r.date ≤ (rs.foldl laterRow r).date ∧
      ∀ x ∈ rs, x.date ≤ (rs.foldl laterRow r).date := by
  induction rs generalizing r with
  | nil => exact ⟨le_refl _, fun x hx => absurd hx (List.not_mem_nil x)⟩
  | cons y rs ih =>
      obtain ⟨h₁, h₂⟩ := ih (laterRow r y)
      have hr : r.date ≤ (laterRow r y).date := by
        unfold laterRow; split <;> omega
      have hy : y.date ≤ (laterRow r y).date := by
        unfold laterRow; split <;> omega
      refine ⟨le_trans hr h₁, fun x hx => ?_⟩
      rcases List.mem_cons.mp hx with rfl | hx
      · exact le_trans hy h₁
      · exact h₂ x hx

theorem selectLatest_mem {rows : List Row} {sel : Row}
    (h : selectLatest rows = some sel) : sel ∈ rows := by
  cases rows with
  | nil => simp [selectLatest] at h
  | cons r rs =>
      simp only [selectLatest, Option.some.injEq] at h
      subst h
      rcases foldl_laterRow_mem rs r with h | h
      · rw [h]; exact List.mem_cons_self _ _
      · exact List.mem_cons_of_mem _ h

theorem selectLatest_max {rows : List Row} {sel : Row}
    (h : selectLatest rows = some sel) : ∀ x ∈ rows, x.date ≤ sel.date := by
  cases rows with
  | nil => simp [selectLatest] at h
  | cons r rs =>
      simp only [selectLatest, Option.some.injEq] at h
      subst h
      intro x hx
      obtain ⟨h₁, h₂⟩ := foldl_laterRow_le rs r
      rcases List.mem_cons.mp hx with rfl | hx
      · exact h₁
      · exact h₂ x hx

theorem selectLatest_eq_none {rows : List Row} :
    selectLatest rows = none ↔ rows = [] := by
  cases rows <;> simp [selectLatest]

/-- The per-symbol resolution step of `fetch_price_volume`, as an
`Option`-valued map: `some` of the appended DataFrame row on success. -/
def resolveEntry (m : Market) (selected : Int) (sym : String) : Option Entry :=
  match (get_valid_date m sym selected).1 with
  | some pv => some ⟨sym, pv.1, pv.2⟩
  | none => none

theorem fetch_price_volume_fst (m : Market) (d : Int) (ts : List String) :
    (fetch_price_volume m ts d).1 = ts.filterMap (resolveEntry m d) := by
  induction ts with
  | nil => rfl
  | cons s rest ih =>
      simp only [fetch_price_volume, List.filterMap_cons, resolveEntry]
      cases h : (get_valid_date m s d).1 <;> simp [h, ih]

theorem fetch_price_volume_snd (m : Market) (d : Int) (ts : List String) :
    (fetch_price_volume m ts d).2 =
      ts.filter (fun s => ((get_valid_date m s d).1).isNone) := by
  induction ts with
  | nil => rfl
  | cons s rest ih =>
      simp only [fetch_price_volume, List.filter_cons]
      cases h : (get_valid_date m s d).1 <;> simp [h, ih]

theorem resolveEntry_ticker {m : Market} {d : Int} {sym : String} {e : Entry}
    (h : resolveEntry m d sym = some e) : e.ticker = sym := by
  unfold resolveEntry at h
  cases hg : (get_valid_date m sym d).1 <;> rw [hg] at h
  · exact absurd h (by simp)
  · simp only [Option.some.injEq] at h; rw [← h]

theorem get_valid_date_err {m : Market} {sym e : String} {d : Int}
    (hm : m sym = Fetch.err e) :
    get_valid_date m sym d = (none, [fetchErrMsg sym e]) := by
  unfold get_valid_date
  rw [hm]

theorem get_valid_date_ok_none {m : Market} {sym : String} {t : PriceTable}
    {d : Int} (hm : m sym = Fetch.ok t)
    (hsel : selectLatest (windowRows t (d - 7) (d + 1)) = none) :
    get_valid_date m sym d = (none, [noDataMsg sym (d - 7) (d + 1)]) := by
  unfold get_valid_date
  rw [hm]
  split <;> simp_all

theorem get_valid_date_ok_some {m : Market} {sym : String} {t : PriceTable}
    {d : Int} {sel : Row} (hm : m sym = Fetch.ok t)
    (hsel : selectLatest (windowRows t (d - 7) (d + 1)) = some sel) :
    get_valid_date m sym d =
      if t.hasAdjClose then (some (sel.adjClose, sel.volume), [])
      else (none, [fetchErrMsg sym "KeyError: Adj Close"]) := by
  unfold get_valid_date
  rw [hm]
  split <;> simp_all

theorem resolveEntry_isSome (m : Market) (d : Int) (s : String) :
    (resolveEntry m d s).isSome = ((get_valid_date m s d).1).isSome := by
  unfold resolveEntry
  cases (get_valid_date m s d).1 <;> simp

theorem mem_resolved_iff (m : Market) (d : Int) (ts : List String) (s : String) :
    s ∈ (fetch_price_volume m ts d).1.map Entry.ticker ↔
      s ∈ ts ∧ ((get_valid_date m s d).1).isSome = true := by
  rw [fetch_price_volume_fst]
  simp only [List.mem_map, List.mem_filterMap]
  constructor
  · rintro ⟨e, ⟨a, ha, hre⟩, hts⟩
    have hta := resolveEntry_ticker hre
    have has : a = s := by rw [← hts, hta]
    subst has
    refine ⟨ha, ?_⟩
    rw [← resolveEntry_isSome, hre]
    rfl
  · rintro ⟨hts, hsome⟩
    cases hg : (get_valid_date m s d).1 with
    | none => rw [hg] at hsome; simp at hsome
    | some pv =>
        refine ⟨⟨s, pv.1, pv.2⟩, ⟨s, hts, ?_⟩, rfl⟩
        unfold resolveEntry
        rw [hg]

theorem mem_failed_iff (m : Market) (d : Int) (ts : List String) (s : String) :
    s ∈ (fetch_price_volume m ts d).2 ↔
      s ∈ ts ∧ ((get_valid_date m s d).1).isNone = true := by
  rw [fetch_price_volume_snd]
  simp [List.mem_filter]

theorem fetch_price_volume_length (m : Market) (d : Int) (ts : List String) :
    (fetch_price_volume m ts d).1.length + (fetch_price_volume m ts d).2.length
      = ts.length := by
  induction ts with
  | nil => rfl
  | cons s rest ih =>
      simp only [fetch_price_volume]
      cases h : (get_valid_date m s d).1 <;> simp [h] <;> omega

/-! ### Concrete markets used by counterexamples and witnesses -/

/-- Market for C1: the YPF leg resolves with an adjusted-close price of
exactly 0, the YPFD.BA leg resolves with price 5. -/
def mC1 : Market := fun s =>
  if s = "YPF" then Fetch.ok ⟨true, [⟨0, 0, 0, 100⟩]⟩
  else if s = "YPFD.BA" then Fetch.ok ⟨true, [⟨0, 5, 5, 200⟩]⟩
  else Fetch.err "unused"

/-- Table for C2: the adjusted-close column is absent, a plain close value
of 10 is present on a row inside the window. -/
def tC2 : PriceTable := ⟨false, [⟨0, 10, 10, 100⟩]⟩

/-- Market for C2: every symbol is served the close-only table `tC2`. -/
def mC2 : Market := fun _ => Fetch.ok tC2

/-! ### Claims -/

/-- C1, counterexample: the claim says `fetch_ypf_ratio` returns `None`
whenever the YPF price resolves to exactly 0.  In `mC1` the YPF leg resolves
to price 0 and the YPFD.BA leg to price 5, yet `fetch_ypf_ratio` does not
return `none`: the source has no zero test on `ypf_price`, the division is
performed regardless. -/
theorem c1_zero_price_counterexample :
    (get_valid_date mC1 "YPF" 0).1 = some (0, 100) ∧
      fetch_ypf_ratio mC1 0 ≠ none := by decide

/-- C1, amended: `fetch_ypf_ratio` returns `none` exactly when either leg
fails to resolve; a YPF price of exactly 0 is not checked and still yields a
returned ratio value. -/
theorem c1_ratio_none_iff_leg_fails (m : Market) (d : Int) :
    fetch_ypf_ratio m d = none ↔
      ((get_valid_date m "YPF" d).1 = none ∨
        (get_valid_date m "YPFD.BA" d).1 = none) := by
  unfold fetch_ypf_ratio
  cases h1 : (get_valid_date m "YPF" d).1 <;>
    cases h2 : (get_valid_date m "YPFD.BA" d).1 <;> simp

/-- C2, counterexample: the claim says a record with only a plain close field
still resolves successfully.  In `mC2` the table has no adjusted-close column
but a row with a plain close price inside the window, and resolution fails
(returns `none`): the source reads only the adjusted-close column and the
resulting `KeyError` is caught as a failure, with no fallback. -/
theorem c2_close_only_counterexample :
    tC2.hasAdjClose = false ∧
      windowRows tC2 (0 - 7) (0 + 1) ≠ [] ∧
      (get_valid_date mC2 "AAA" 0).1 = none := by decide

/-- C2, amended: with a table present and a nonempty window, resolution
succeeds exactly when the adjusted-close column is present; when it is
absent the `KeyError` is caught and the symbol fails with an error warning
(no fallback to the plain close column). -/
theorem c2_adjclose_required (m : Market) (sym : String) (d : Int)
    (t : PriceTable) (hm : m sym = Fetch.ok t)
    (hne : windowRows t (d - 7) (d + 1) ≠ []) :
    ((get_valid_date m sym d).1.isSome = t.hasAdjClose) ∧
      (t.hasAdjClose = false →
        (get_valid_date m sym d).2 = [fetchErrMsg sym "KeyError: Adj Close"]) := by
  unfold get_valid_date
  rw [hm]
  cases hsel : selectLatest (windowRows t (d - 7) (d + 1)) with
  | none => exact absurd (selectLatest_eq_none.mp hsel) hne
  | some sel => cases hadj : t.hasAdjClose <;> simp [hadj, hsel]

/-- C2, witness for the amended theorem at the concrete close-only market. -/
theorem c2_adjclose_required_witness :
    (get_valid_date mC2 "AAA" 0).1.isSome = tC2.hasAdjClose :=
  (c2_adjclose_required mC2 "AAA" 0 tC2 rfl (by decide)).1

/-- C4: at the empty resolved set — the DataFrame `main` builds when every
ticker of a basket fails, which has no columns — `calculate_sum` raises
`KeyError` on the Price column instead of returning 0.  The claim (and the
spec) promise exactly 0 with no exception; the code only avoids the raise
because `main` guards each call with its own nonempty test. -/
theorem c4_empty_keyerror :
    calculate_sum ([] : List Entry) = Except.error "KeyError: Price" := rfl

/-- C6: the normalization step of `main` yields 0 with the reportable
`st.error` condition when the ratio is `None`, and yields the quotient with
no error condition for any nonzero ratio. -/
theorem c6_normalize (x r : ℚ) (hr : r ≠ 0) :
    normalize_step x none = (0, true) ∧
      normalize_step x (some r) = (x / r, false) :=
  ⟨rfl, by simp [normalize_step, hr]⟩

/-- C6, witness at x = 6, r = 2. -/
theorem c6_normalize_witness :
    normalize_step 6 none = (0, true) ∧
      normalize_step 6 (some 2) = (6 / 2, false) :=
  c6_normalize 6 2 (by norm_num)

/-- Row for C3: dated 3 days before the target, price 10, volume 100
(the scenario of the spec). -/
def rowC3 : Row := ⟨-3, 10, 10, 100⟩

/-- Table for C3: a single row three days before the target date. -/
def tC3 : PriceTable := ⟨true, [rowC3]⟩

/-- Market for C3: every symbol is served `tC3`. -/
def mC3 : Market := fun _ => Fetch.ok tC3

/-- Table for C7: one row far outside any 7-day lookback window of date 0. -/
def tC7 : PriceTable := ⟨true, [⟨-100, 4, 4, 7⟩]⟩

/-- Market for C7: every symbol is served `tC7`. -/
def mC7 : Market := fun _ => Fetch.ok tC7

/-- Market for C8: the provider always raises a transport error. -/
def mC8 : Market := fun _ => Fetch.err "boom"

/-- Market for C9: symbols A and B resolve, everything else errors. -/
def mC9 : Market := fun s =>
  if s = "A" then Fetch.ok ⟨true, [⟨0, 2, 2, 50⟩]⟩
  else if s = "B" then Fetch.ok ⟨true, [⟨0, 3, 3, 10⟩]⟩
  else Fetch.err "no data"

/-- Market for C10: the basket symbol AAA resolves but the YPF ratio leg
raises a transport error, so the ratio is unavailable. -/
def mC10 : Market := fun s =>
  if s = "AAA" then Fetch.ok ⟨true, [⟨0, 2, 2, 50⟩]⟩
  else Fetch.err "boom"

/-- C3: whenever resolution of (symbol, target date) succeeds, the selected
record lies in the 7-calendar-day lookback window ending at the target date
and its date is never after the target date. -/
theorem c3_resolved_date_in_window (m : Market) (sym : String) (d : Int)
    (t : PriceTable) (sel : Row)
    (hm : m sym = Fetch.ok t)
    (hsel : selectLatest (windowRows t (d - 7) (d + 1)) = some sel)
    (hok : ((get_valid_date m sym d).1).isSome = true) :
    (get_valid_date m sym d).1 = some (sel.adjClose, sel.volume) ∧
      d - 7 ≤ sel.date ∧ sel.date ≤ d := by
  obtain ⟨-, hlo, hhi⟩ := mem_windowRows.mp (selectLatest_mem hsel)
  have heq := get_valid_date_ok_some (d := d) hm hsel
  refine ⟨?_, hlo, by omega⟩
  rw [heq] at hok ⊢
  cases hadj : t.hasAdjClose <;> simp_all

/-- C3, witness at the spec scenario: one record dated 3 days before the
target resolves to its (price, volume) with its date inside the window. -/
theorem c3_witness :
    (get_valid_date mC3 "AAA" 0).1 = some (rowC3.adjClose, rowC3.volume) ∧
      0 - 7 ≤ rowC3.date ∧ rowC3.date ≤ 0 :=
  c3_resolved_date_in_window mC3 "AAA" 0 tC3 rowC3 rfl (by decide) (by decide)

/-- C5: `fetch_price_volume` partitions the input ticker list: the lengths of
the resolved DataFrame and the failed list add to the input length, and every
symbol is in the resolved tickers or the failed list exactly when it is an
input symbol, never in both. -/
theorem c5_partition (m : Market) (ts : List String) (d : Int) :
    (fetch_price_volume m ts d).1.length + (fetch_price_volume m ts d).2.length
        = ts.length ∧
      ∀ s : String,
        ((s ∈ (fetch_price_volume m ts d).1.map Entry.ticker ∨
            s ∈ (fetch_price_volume m ts d).2) ↔ s ∈ ts) ∧
          ¬(s ∈ (fetch_price_volume m ts d).1.map Entry.ticker ∧
            s ∈ (fetch_price_volume m ts d).2) := by
  refine ⟨fetch_price_volume_length m d ts, fun s => ⟨?_, ?_⟩⟩
  · rw [mem_resolved_iff, mem_failed_iff]
    constructor
    · rintro (⟨h, -⟩ | ⟨h, -⟩) <;> exact h
    · intro h
      cases hg : (get_valid_date m s d).1
      · exact Or.inr ⟨h, rfl⟩
      · exact Or.inl ⟨h, rfl⟩
  · rw [mem_resolved_iff, mem_failed_iff]
    rintro ⟨⟨-, h1⟩, ⟨-, h2⟩⟩
    cases hg : (get_valid_date m s d).1 <;> rw [hg] at h1 h2 <;> simp_all

/-- C7: with a table served for the symbol, the queried window is exactly the
rows with date in [target - 7, target + 1); an empty window fails with the
no-data warning; otherwise the selected record is in the window and its date
is maximal among the window records. -/
theorem c7_window_query_and_latest (m : Market) (sym : String) (d : Int)
    (t : PriceTable) (hm : m sym = Fetch.ok t) :
    (∀ r : Row, r ∈ windowRows t (d - 7) (d + 1) ↔
        r ∈ t.rows ∧ d - 7 ≤ r.date ∧ r.date < d + 1) ∧
      (windowRows t (d - 7) (d + 1) = [] →
        get_valid_date m sym d = (none, [noDataMsg sym (d - 7) (d + 1)])) ∧
      (∀ sel : Row, selectLatest (windowRows t (d - 7) (d + 1)) = some sel →
        sel ∈ windowRows t (d - 7) (d + 1) ∧
        ∀ r ∈ windowRows t (d - 7) (d + 1), r.date ≤ sel.date) := by
  refine ⟨fun r => mem_windowRows, fun hempty => ?_,
    fun sel hsel => ⟨selectLatest_mem hsel, selectLatest_max hsel⟩⟩
  exact get_valid_date_ok_none hm (selectLatest_eq_none.mpr hempty)

/-- C7, witness: a market whose only record is outside the window fails with
the no-data warning. -/
theorem c7_witness :
    get_valid_date mC7 "GGAL" 0 = (none, [noDataMsg "GGAL" (0 - 7) (0 + 1)]) :=
  (c7_window_query_and_latest mC7 "GGAL" 0 tC7 rfl).2.1 (by decide)

/-- C8: a transport error from the provider is caught and converted into a
failed resolution whose single warning is the error message with the
underlying cause appended; the function returns normally (no exception
escapes). -/
theorem c8_transport_error_caught (m : Market) (sym e : String) (d : Int)
    (hm : m sym = Fetch.err e) :
    get_valid_date m sym d = (none, [fetchErrMsg sym e]) ∧
      ∃ pre, fetchErrMsg sym e = pre ++ e :=
  ⟨get_valid_date_err hm, ⟨"Error fetching data for " ++ sym ++ ": ", rfl⟩⟩

/-- C8, witness at a market that always raises a transport error. -/
theorem c8_witness :
    get_valid_date mC8 "GGAL" 0 = (none, [fetchErrMsg "GGAL" "boom"]) :=
  (c8_transport_error_caught mC8 "GGAL" "boom" 0 rfl).1

/-- C9: the dollar-volume sum of the resolved basket is invariant under any
permutation of the input ticker list. -/
theorem c9_dollar_volume_perm_invariant (m : Market) (d : Int)
    (ts₁ ts₂ : List String) (h : ts₁.Perm ts₂) :
    calculate_sum (fetch_price_volume m ts₁ d).1 =
      calculate_sum (fetch_price_volume m ts₂ d).1 := by
  have hperm : ((fetch_price_volume m ts₁ d).1).Perm
      ((fetch_price_volume m ts₂ d).1) := by
    rw [fetch_price_volume_fst, fetch_price_volume_fst]
    exact List.Perm.filterMap _ h
  have hsum : ((fetch_price_volume m ts₁ d).1.map
        (fun e => e.price * e.volume)).sum =
      ((fetch_price_volume m ts₂ d).1.map (fun e => e.price * e.volume)).sum :=
    List.Perm.sum_eq (List.Perm.map _ hperm)
  have hlen := hperm.length_eq
  have hemp : (fetch_price_volume m ts₁ d).1.isEmpty
      = (fetch_price_volume m ts₂ d).1.isEmpty := by
    cases h1 : (fetch_price_volume m ts₁ d).1 <;>
      cases h2 : (fetch_price_volume m ts₂ d).1 <;> simp_all
  unfold calculate_sum
  rw [hemp, hsum]

/-- C9, witness: swapping a two-symbol basket leaves the sum unchanged. -/
theorem c9_witness :
    calculate_sum (fetch_price_volume mC9 ["A", "B"] 0).1 =
      calculate_sum (fetch_price_volume mC9 ["B", "A"] 0).1 :=
  c9_dollar_volume_perm_invariant mC9 0 ["A", "B"] ["B", "A"]
    (List.Perm.swap "B" "A" [])

/-- C10: in the normalization step of `main`, whenever `fetch_ypf_ratio`
returns `None` or exactly 0, the truthiness test sends the computation to the
zero branch with the reportable `st.error` condition; and whenever no error
condition is raised the result was produced by dividing by a non-`None`,
nonzero ratio. -/
theorem c10_truthiness_guard (m : Market) (ts : List String) (d : Int)
    (h : fetch_ypf_ratio m d = none ∨ fetch_ypf_ratio m d = some 0)
    (hdf : (fetch_price_volume m ts d).1 ≠ []) :
    panel_value m ts d = (0, true) ∧
      ∀ (s : ℚ) (ratio : Option ℚ), (normalize_step s ratio).2 = false →
        ∃ r, ratio = some r ∧ r ≠ 0 ∧ (normalize_step s ratio).1 = s / r := by
  constructor
  · have hne : (fetch_price_volume m ts d).1.isEmpty = false := by
      cases hfp : (fetch_price_volume m ts d).1 with
      | nil => exact absurd hfp hdf
      | cons a l => rfl
    rcases h with h | h <;>
      simp [panel_value, calculate_sum, hne, h, normalize_step]
  · intro s ratio hfalse
    cases ratio with
    | none => simp [normalize_step] at hfalse
    | some r =>
        by_cases hr : r = 0
        · subst hr; simp [normalize_step] at hfalse
        · exact ⟨r, rfl, hr, by simp [normalize_step, hr]⟩

/-- C10, witness: basket AAA resolves but the ratio leg errors, so the panel
value is 0 with the reportable condition. -/
theorem c10_witness : panel_value mC10 ["AAA"] 0 = (0, true) :=
  (c10_truthiness_guard mC10 ["AAA"] 0 (Or.inl (by decide)) (by decide)).1

end FlujoADR
